import Mathlib

/-!
# Verification of the Object-Paint mask-to-recolor pipeline

Shallow embedding of the numeric core of the repository:
`app/ml/recolor.py` (color parsing, color-match masking, recoloring),
`app/ml/refine.py` (mask refinement and shadow expansion),
`app/ml/segment.py` and `app/ui.py` (rectangle-hint resolution and
upstream validation).

Conventions of the embedding:
* `numpy` float64 values are modelled as exact rationals (`ℚ`);
  8-bit channel values are modelled as `ℕ` (with explicit truncation
  where the code casts with `astype(np.uint8)`).
* Images and masks are modelled as total functions from row/column
  indices (`Grid α := ℕ → ℕ → α`); array bounds appear as explicit
  `i < h`, `j < w` hypotheses where a claim needs them.
* OpenCV primitives that are pixelwise black boxes for every claim
  (`cvtColor` BGR↔HSV, RGB→GRAY, `cv2.resize`, `cv2.GaussianBlur`,
  `cv2.grabCut`) are abstracted as parameters collected in `CvExt`;
  all theorems quantify over them, so they hold for every
  implementation of those primitives.  OpenCV primitives whose concrete
  behaviour claims do depend on (elliptical structuring elements,
  erosion/dilation) are modelled concretely.
* Python code that can raise an uncaught exception is modelled with
  `Except Unit`.
-/

/- Core marks rational arithmetic `@[irreducible]`, which blocks kernel
evaluation of concrete witnesses; restore the default reducibility for
this file. -/
attribute [local semireducible] Rat.mul Rat.add Rat.sub Rat.inv

instance {ε α : Type} [DecidableEq ε] [DecidableEq α] : DecidableEq (Except ε α) := fun
  | .error a, .error b =>
      if h : a = b then .isTrue (by rw [h]) else .isFalse (by simp [h])
  | .error _, .ok _ => .isFalse (by simp)
  | .ok _, .error _ => .isFalse (by simp)
  | .ok a, .ok b =>
      if h : a = b then .isTrue (by rw [h]) else .isFalse (by simp [h])

/-! ## Basic numeric helpers -/

/-- `np.clip(x, 0, 1)`. -/
def clip01 (x : ℚ) : ℚ := min 1 (max 0 x)

/-- `np.clip(x, lo, hi)`. -/
def clipQ (lo hi x : ℚ) : ℚ := min hi (max lo x)

/-- Truncation to an unsigned byte as in `(np.clip(x,0,1)*255).astype(np.uint8)`:
clip to `[0,1]`, scale by 255, truncate toward zero. -/
def toByte (x : ℚ) : ℕ := (⌊clip01 x * 255⌋).toNat

/-- Truncation of a clipped channel as in
`np.clip(x, 0, hi).astype(np.uint8)` for `hi ≤ 255`. -/
def toByteClip (hi x : ℚ) : ℕ := (⌊clipQ 0 hi x⌋).toNat

/-- `numpy` floored modulus (`%` / `np.mod`) on rationals:
`x - y * ⌊x / y⌋`. -/
def qmod (x y : ℚ) : ℚ := x - y * ⌊x / y⌋

/-- Python 3 `round` (banker's rounding, half to even) on a rational. -/
def pyRound (q : ℚ) : ℤ :=
  let f := ⌊q⌋
  if q - f < 1/2 then f
  else if 1/2 < q - f then f + 1
  else if f % 2 = 0 then f else f + 1

/-! ## Character and string helpers (Python string semantics) -/

/-- Python whitespace characters recognised by `str.strip` / regex `\s`
(ASCII range). -/
def isPySpace (c : Char) : Bool :=
  c = ' ' || c = '\t' || c = '\n' || c = '\x0d' || c = '\x0b' || c = '\x0c'

/-- Hexadecimal digit (`"0123456789abcdefABCDEF"`). -/
def isHexDigitCh (c : Char) : Bool :=
  ('0' ≤ c && c ≤ '9') || ('a' ≤ c && c ≤ 'f') || ('A' ≤ c && c ≤ 'F')

/-- Value of a hexadecimal digit. -/
def hexVal (c : Char) : ℕ :=
  if '0' ≤ c && c ≤ '9' then c.toNat - '0'.toNat
  else if 'a' ≤ c && c ≤ 'f' then c.toNat - 'a'.toNat + 10
  else if 'A' ≤ c && c ≤ 'F' then c.toNat - 'A'.toNat + 10
  else 0

/-- Python `str.strip()` on a character list. -/
def pyStripL (l : List Char) : List Char :=
  ((l.dropWhile isPySpace).reverse.dropWhile isPySpace).reverse

/-- Does `pat` occur as a contiguous substring of `s`?  (Python `in`.) -/
def containsSub (pat : List Char) : List Char → Bool
  | [] => pat.isEmpty
  | c :: rest => pat.isPrefixOf (c :: rest) || containsSub pat rest

/-- Regex character class `[\d.]` (ASCII digits and the dot). -/
def isDigitOrDot (c : Char) : Bool := c.isDigit || c = '.'

/-- Value of an ASCII decimal digit string (0 for the empty string). -/
def digitsVal (l : List Char) : ℕ :=
  l.foldl (fun a c => a * 10 + (c.toNat - '0'.toNat)) 0

/-- Python `float(s)` restricted to strings over `[\d.]` (the only
strings the rgba regex can hand it): succeeds iff there is at most one
dot and at least one digit; `none` models an uncaught `ValueError`. -/
def parsePyFloat (l : List Char) : Option ℚ :=
  if l.all isDigitOrDot && l.count '.' ≤ 1 && l.any (·.isDigit) then
    let ip := l.takeWhile (· ≠ '.')
    let fp := (l.dropWhile (· ≠ '.')).drop 1
    some ((digitsVal ip : ℚ) + (digitsVal fp : ℚ) / 10 ^ fp.length)
  else none

/-- Python `int(s, 16)` on a two-character string, as used by
`hex_to_rgb` on each channel pair: hex digits, with Python's tolerance
for a sign or surrounding whitespace around a single digit.
`none` models `ValueError` (caught by the caller). -/
def intBase16Pair (c1 c2 : Char) : Option ℤ :=
  if isHexDigitCh c1 && isHexDigitCh c2 then
    some (16 * hexVal c1 + hexVal c2)
  else if (c1 = '+' || c1 = '-') && isHexDigitCh c2 then
    some (if c1 = '-' then -(hexVal c2 : ℤ) else (hexVal c2 : ℤ))
  else if isPySpace c1 && isHexDigitCh c2 then some (hexVal c2)
  else if isHexDigitCh c1 && isPySpace c2 then some (hexVal c1)
  else none

/-! ## `app/ml/recolor.py`: `hex_to_rgb` and `parse_color_to_rgb` -/

/-- `hex_to_rgb`: strip leading `#`s, require exactly six characters,
convert the three pairs with `int(·, 16)`.  `none` models the
`ValueError` the function raises (always caught by its caller). -/
def hexToRgb (s : List Char) : Option (ℤ × ℤ × ℤ) :=
  match s.dropWhile (· = '#') with
  | [a, b, c, d, e, f] => do
      let rv ← intBase16Pair a b
      let gv ← intBase16Pair c d
      let bv ← intBase16Pair e f
      pure (rv, gv, bv)
  | _ => none

/-- `int(round(min(255, max(0, x))))`. -/
def clampRound255 (x : ℚ) : ℤ := pyRound (min 255 (max 0 x))

/-- The preprocessing of `parse_color_to_rgb` (lines 23-26): strip,
then if the string starts with `#` and contains `rgba` (lowercased),
drop the leading `#`s and strip again. -/
def parsePre (value : String) : List Char :=
  let s := pyStripL value.toList
  if s.headD ' ' = '#' && containsSub "rgba".toList (s.map Char.toLower) then
    pyStripL (s.dropWhile (· = '#'))
  else s

/-- The anchored regex
`rgba?\s*\(\s*([\d.]+)\s*,\s*([\d.]+)\s*,\s*([\d.]+)` from
`parse_color_to_rgb`, returning the three captured groups.  The
pattern is deterministic (each greedy repetition is followed by a
character it cannot match), so maximal munch is faithful. -/
def matchRgbaGroups (l : List Char) : Option (List Char × List Char × List Char) :=
  match l with
  | 'r' :: 'g' :: 'b' :: rest0 =>
    let rest1 := match rest0 with
      | 'a' :: r2 => r2
      | r2 => r2
    (match rest1.dropWhile isPySpace with
     | '(' :: rest2 =>
       let rest3 := rest2.dropWhile isPySpace
       let g1 := rest3.takeWhile isDigitOrDot
       if g1.isEmpty then none else
       (match (rest3.drop g1.length).dropWhile isPySpace with
        | ',' :: rest4 =>
          let rest5 := rest4.dropWhile isPySpace
          let g2 := rest5.takeWhile isDigitOrDot
          if g2.isEmpty then none else
          (match (rest5.drop g2.length).dropWhile isPySpace with
           | ',' :: rest6 =>
             let rest7 := rest6.dropWhile isPySpace
             let g3 := rest7.takeWhile isDigitOrDot
             if g3.isEmpty then none else some (g1, g2, g3)
           | _ => none)
        | _ => none)
     | _ => none)
  | _ => none

/-- The numeric assembly of the rgba branch (lines 34-37): scale
normalized components by 255, clamp and round. -/
def rgbaAssemble (r g b : ℚ) : ℤ × ℤ × ℤ :=
  let p := if r ≤ 1 && g ≤ 1 && b ≤ 1 then (r * 255, g * 255, b * 255) else (r, g, b)
  (clampRound255 p.1, clampRound255 p.2.1, clampRound255 p.2.2)

/-- `parse_color_to_rgb`.  `Option String` input: `none` stands for a
non-string Python value (which falls into the fallback branch exactly
like the empty string).  `Except.error ()` models an uncaught
`ValueError` escaping from `float(...)` on a matched rgba group. -/
def parseColorToRgb : Option String → Except Unit (ℤ × ℤ × ℤ)
  | none => .ok (255, 0, 0)
  | some value =>
    if value.isEmpty then .ok (255, 0, 0) else
    let s := parsePre value
    let hexPart := if s.headD ' ' = '#' then s.dropWhile (· = '#') else s
    if 6 ≤ hexPart.length && (hexPart.take 6).all isHexDigitCh then
      .ok (16 * hexVal (hexPart.getD 0 '0') + hexVal (hexPart.getD 1 '0'),
           16 * hexVal (hexPart.getD 2 '0') + hexVal (hexPart.getD 3 '0'),
           16 * hexVal (hexPart.getD 4 '0') + hexVal (hexPart.getD 5 '0'))
    else
      match matchRgbaGroups s with
      | some (g1, g2, g3) =>
        match parsePyFloat g1, parsePyFloat g2, parsePyFloat g3 with
        | some r, some g, some b => .ok (rgbaAssemble r g b)
        | _, _, _ => .error ()
      | none =>
        match hexToRgb s with
        | some t => .ok t
        | none => .ok (255, 0, 0)

/-! ## Images, masks, external OpenCV primitives -/

/-- A 2-D array, indexed row-major as a total function. -/
def Grid (α : Type) : Type := ℕ → ℕ → α

/-- One RGBA pixel (8-bit channels as naturals). -/
structure Px4 where
  r : ℕ
  g : ℕ
  b : ℕ
  a : ℕ
deriving DecidableEq

/-- The input of `recolor_masked_region`: a 2-D grayscale array, an
H×W×3 RGB array, or an H×W×4 RGBA array. -/
inductive InputImage where
  | gray (g : Grid ℕ)
  | rgb (g : Grid (ℕ × ℕ × ℕ))
  | rgba (g : Grid Px4)

/-- Lines 95-99 of `recolor.py`: normalize the input to RGBA, with the
alpha channel defaulted to 255 when absent. -/
def normalizeImage : InputImage → Grid Px4
  | .gray g => fun i j => ⟨g i j, g i j, g i j, 255⟩
  | .rgb g => fun i j => ⟨(g i j).1, (g i j).2.1, (g i j).2.2, 255⟩
  | .rgba g => fun i j => g i j

/-- Does the input carry its own alpha channel? -/
def hasAlphaChannel : InputImage → Bool
  | .rgba _ => true
  | _ => false

/-- `image[:,:,:3].astype(np.float64) / 255.0` of the normalized image. -/
def rgbQof (img : InputImage) : Grid (ℚ × ℚ × ℚ) := fun i j =>
  (((normalizeImage img i j).r : ℚ) / 255,
   ((normalizeImage img i j).g : ℚ) / 255,
   ((normalizeImage img i j).b : ℚ) / 255)

/-- The external OpenCV primitives the pipeline calls.  They are
parameters of the embedding: every theorem quantifies over them, so it
holds for any implementation.  `cvtColor` conversions are pixelwise. -/
structure CvExt where
  /-- `cv2.cvtColor(·, cv2.COLOR_BGR2HSV)` on one 8-bit BGR pixel,
  returning (H, S, V) with H in 0..179. -/
  bgr2hsv : ℕ × ℕ × ℕ → ℕ × ℕ × ℕ
  /-- `cv2.cvtColor(·, cv2.COLOR_HSV2BGR)` on one 8-bit HSV pixel. -/
  hsv2bgr : ℕ × ℕ × ℕ → ℕ × ℕ × ℕ
  /-- `cv2.cvtColor(·, cv2.COLOR_RGB2GRAY)` on one 8-bit RGB pixel. -/
  rgb2gray : ℕ × ℕ × ℕ → ℕ
  /-- `cv2.resize(mask, (w, h), interpolation=cv2.INTER_LINEAR)`:
  source height, source width, destination height, destination width,
  source grid. -/
  resize : ℕ → ℕ → ℕ → ℕ → Grid ℚ → Grid ℚ
  /-- `cv2.GaussianBlur(grid, (ksize, ksize), sigma)`: sigma, ksize,
  source grid. -/
  gauss : ℚ → ℕ → Grid ℚ → Grid ℚ

/-! ## `app/ml/refine.py`: structuring elements and morphology

`cv2.getStructuringElement(cv2.MORPH_ELLIPSE, (k, k))` for odd `k`
with radius `r = k/2` marks, in row `dy ∈ [-r, r]`, the columns
`|dx| ≤ round(sqrt(r² - dy²))` (OpenCV's integer ellipse; for `k = 1`
it is the single anchor pixel).  `round(sqrt(n))` for a natural `n` is
`(Nat.sqrt (4n) + 1) / 2`.  Erosion and dilation take the min/max over
the in-bounds translated kernel support, which is OpenCV's behaviour
with its default border handling (out-of-bounds pixels do not
contribute). -/

/-- Nearest integer to `Real.sqrt n` (never a tie for natural `n`). -/
def roundSqrt (n : ℕ) : ℕ := (Nat.sqrt (4 * n) + 1) / 2

/-- Offsets of the elliptical structuring element of size `k × k`. -/
def ellipseOffsets (k : ℕ) : List (ℤ × ℤ) :=
  let r := k / 2
  (List.range k).flatMap fun i =>
    let dy : ℤ := (i : ℤ) - (r : ℤ)
    let dx : ℕ := if r = 0 then 0 else roundSqrt (r * r - dy.natAbs * dy.natAbs)
    (List.range k).filterMap fun j =>
      let dxo : ℤ := (j : ℤ) - (r : ℤ)
      if dxo.natAbs ≤ dx then some (dy, dxo) else none

/-- `cv2.dilate` (8-bit): max over the in-bounds kernel support. -/
def cvDilate (K : List (ℤ × ℤ)) (h w : ℕ) (g : Grid ℕ) : Grid ℕ := fun i j =>
  K.foldr (fun p acc =>
    let ii : ℤ := (i : ℤ) + p.1
    let jj : ℤ := (j : ℤ) + p.2
    if 0 ≤ ii ∧ ii < (h : ℤ) ∧ 0 ≤ jj ∧ jj < (w : ℤ) then
      max (g ii.toNat jj.toNat) acc
    else acc) 0

/-- `cv2.erode` (8-bit): min over the in-bounds kernel support. -/
def cvErode (K : List (ℤ × ℤ)) (h w : ℕ) (g : Grid ℕ) : Grid ℕ := fun i j =>
  K.foldr (fun p acc =>
    let ii : ℤ := (i : ℤ) + p.1
    let jj : ℤ := (j : ℤ) + p.2
    if 0 ≤ ii ∧ ii < (h : ℤ) ∧ 0 ≤ jj ∧ jj < (w : ℤ) then
      min (g ii.toNat jj.toNat) acc
    else acc) 255

/-- `cv2.morphologyEx(·, cv2.MORPH_CLOSE, K)`: dilate then erode. -/
def morphClose (K : List (ℤ × ℤ)) (h w : ℕ) (g : Grid ℕ) : Grid ℕ :=
  cvErode K h w (cvDilate K h w g)

/-- `cv2.morphologyEx(·, cv2.MORPH_OPEN, K)`: erode then dilate. -/
def morphOpen (K : List (ℤ × ℤ)) (h w : ℕ) (g : Grid ℕ) : Grid ℕ :=
  cvDilate K h w (cvErode K h w g)

/-- `refine_mask` (`app/ml/refine.py`, lines 9-36) for a 2-D float
mask (the non-`uint8` branch of the dtype test, which is the one every
caller in the pipeline and every claim exercises). -/
def refineMask (ext : CvExt) (h w : ℕ) (mask : Grid ℚ) (morphKernel : ℤ)
    (featherPx : ℚ) (maskThreshold : ℚ) : Grid ℚ :=
  let binary : Grid ℕ := fun i j => if maskThreshold ≤ mask i j then 255 else 0
  let k : ℤ := min 9 (max 1 (if morphKernel % 2 = 1 then morphKernel else morphKernel + 1))
  let K := ellipseOffsets k.toNat
  let opened := morphOpen K h w (morphClose K h w binary)
  if 0 < featherPx then
    let sigma : ℚ := max (1/2) featherPx
    let ksize0 : ℕ := (⌊6 * sigma + 1⌋).toNat ||| 1
    let ksize : ℕ := min ksize0 (min h w ||| 1)
    fun i j => clip01 (ext.gauss sigma ksize (fun a b => (opened a b : ℚ) / 255) i j)
  else
    fun i j => (opened i j : ℚ) / 255

/-- `expand_mask_to_include_shadow` (`app/ml/refine.py`, lines 39-67).
The image argument is its first three channels (`image[:, :, :3]`),
which is how every ≥3-channel input enters the luma conversion. -/
def expandMaskToIncludeShadow (ext : CvExt) (h w : ℕ) (image : Grid (ℕ × ℕ × ℕ))
    (mask : Grid ℚ) (dilationPx : ℤ) (shadowValueThreshold : ℚ) : Grid ℚ :=
  let maskFloat : Grid ℚ := fun i j => clip01 (mask i j)
  let binary : Grid ℕ := fun i j => if 1/2 ≤ maskFloat i j then 255 else 0
  let k : ℤ := max 3 (min 51 (2 * dilationPx + 1))
  let K := ellipseOffsets k.toNat
  let dilated := cvDilate K h w binary
  let ring : Grid ℕ := fun i j =>
    (min 255 (max 0 ((dilated i j : ℤ) - (binary i j : ℤ)))).toNat
  let v : Grid ℚ := fun i j => (ext.rgb2gray (image i j) : ℚ) / 255
  let thresh : ℚ := max (1/10) (min (9/10) shadowValueThreshold)
  let dark : Grid ℕ := fun i j => if v i j ≤ thresh then 255 else 0
  fun i j =>
    clip01 (maskFloat i j + (if 0 < ring i j ∧ 0 < dark i j then (1:ℚ) else 0))

/-! ## `app/ml/segment.py` and `app/ui.py`: rectangle hints -/

/-- Lines 103-111 of `segment.py` (`segment_from_rect`): convert the
percentage rectangle to pixel corner coordinates `(x, y, x2, y2)`,
rounding and clamping into the image. -/
def rectToPixels (h w : ℕ) (leftPct topPct rightPct bottomPct : ℚ) : ℤ × ℤ × ℤ × ℤ :=
  let x := pyRound (leftPct / 100 * w)
  let y := pyRound (topPct / 100 * h)
  let x2 := pyRound (rightPct / 100 * w)
  let y2 := pyRound (bottomPct / 100 * h)
  let x := max 0 (min x ((w : ℤ) - 1))
  let y := max 0 (min y ((h : ℤ) - 1))
  let x2 := max (x + 1) (min x2 (w : ℤ))
  let y2 := max (y + 1) (min y2 (h : ℤ))
  (x, y, x2, y2)

/-- `segment_from_rect` with `cv2.grabCut` (plus `_grabcut_from_rect`'s
own clamping) abstracted as `gc : x → y → w → h → mask`. -/
def segmentFromRect (gc : ℤ → ℤ → ℤ → ℤ → Grid ℚ) (h w : ℕ)
    (leftPct topPct rightPct bottomPct : ℚ) : Grid ℚ × String :=
  let p := rectToPixels h w leftPct topPct rightPct bottomPct
  let x := p.1
  let y := p.2.1
  let x2 := p.2.2.1
  let y2 := p.2.2.2
  (gc x y (x2 - x) (y2 - y), "grabcut_rect")

/-- `on_generate_mask` (`app/ui.py`, lines 139-153): validation, then
segmentation (abstracted as `seg`, standing for `run_segment_rect` on
the session image), then `run_refine`.  The error cases return before
`seg` is ever applied. -/
def onGenerateMask (ext : CvExt) (h w : ℕ) (hasImage : Bool)
    (seg : ℚ → ℚ → ℚ → ℚ → Grid ℚ × String)
    (leftPct topPct rightPct bottomPct : ℚ)
    (morphKernel : ℤ) (featherPx maskThreshold : ℚ) :
    Except String (Grid ℚ × String) :=
  if ¬ hasImage then .error "Upload an image first."
  else if rightPct ≤ leftPct ∨ bottomPct ≤ topPct then
    .error "Invalid box: Left < Right and Top < Bottom."
  else
    let sm := seg leftPct topPct rightPct bottomPct
    .ok (refineMask ext h w sm.1 morphKernel featherPx maskThreshold, sm.2)

/-! ## `app/ml/recolor.py`: color-match masking and recoloring

Every stage of `recolor_masked_region` after mask normalization is
pixelwise, so the embedding exposes the value of each intermediate at
one pixel `(i, j)`.  `Except Unit` carries the uncaught `ValueError`
that `parse_color_to_rgb` can raise. -/

/-- The mask argument of `recolor_masked_region`: a 1-D float array of
length `n`, or a 2-D float array of shape `mh × mw`. -/
inductive MaskInput where
  | oneD (n : ℕ) (v : ℕ → ℚ)
  | twoD (mh mw : ℕ) (v : Grid ℚ)

/-- Lines 110-123: coerce the mask to shape `h × w` — reshape a 1-D
mask of matching size row-major, silently replace a 1-D mask of any
other size by zeros, resize a mismatched 2-D mask bilinearly. -/
def normalizeMaskShape (ext : CvExt) (h w : ℕ) : MaskInput → Grid ℚ
  | .oneD n v =>
    if n = h * w then fun i j => v (i * w + j) else fun _ _ => 0
  | .twoD mh mw v =>
    if mh = h ∧ mw = w then v else ext.resize mh mw h w v

/-- `mask_float.max() > 1.5`, expressed as "some in-bounds entry
exceeds 3/2" (the array is nonempty whenever this is consulted). -/
def maskHasBig (h w : ℕ) (g : Grid ℚ) : Bool :=
  (List.range h).any fun i => (List.range w).any fun j => decide (3/2 < g i j)

/-- Lines 124-126: rescale a mask that appears to be 0-255 down by
255, then clip to `[0, 1]`. -/
def normalizeMaskValues (h w : ℕ) (g : Grid ℚ) : Grid ℚ :=
  let g2 := if h * w ≠ 0 ∧ maskHasBig h w g then fun i j => g i j / 255 else g
  fun i j => clip01 (g2 i j)

/-- `(np.clip(rgb, 0, 1) * 255).astype(np.uint8)[:, :, ::-1]` at one
pixel: the 8-bit BGR triple fed to `cv2.cvtColor`. -/
def bgrByteOf (rgbQ : Grid (ℚ × ℚ × ℚ)) (i j : ℕ) : ℕ × ℕ × ℕ :=
  (toByte (rgbQ i j).2.2, toByte (rgbQ i j).2.1, toByte (rgbQ i j).1)

/-- `_build_color_match_mask` (lines 44-78) at one pixel.  `minSat`
and `minVal` are the `min_saturation`/`min_value` parameters
(defaulted to 0 by the caller). -/
def colorMatchMaskAt (ext : CvExt) (rgbQ : Grid (ℚ × ℚ × ℚ)) (objectMask : Grid ℚ)
    (sourceColorHex : String) (hueToleranceDegrees : ℚ) (minSat minVal : ℕ)
    (i j : ℕ) : Except Unit ℚ :=
  match parseColorToRgb (some sourceColorHex) with
  | .error e => .error e
  | .ok (rs, gs, bs) =>
    let srcHsv := ext.bgr2hsv ((bs.emod 256).toNat, (gs.emod 256).toNat, (rs.emod 256).toNat)
    let h0 : ℚ := (srcHsv.1 : ℚ)
    let tol : ℚ := max 1 (min 90 hueToleranceDegrees)
    let hsv := ext.bgr2hsv (bgrByteOf rgbQ i j)
    let hP : ℚ := (hsv.1 : ℚ)
    let sP : ℕ := hsv.2.1
    let vP : ℕ := hsv.2.2
    let d : ℚ := |hP - h0|
    let hueDiff : ℚ := min d (180 - d)
    let fullZone := tol * (6/5)
    let falloffEnd := tol * (9/5)
    let hueOk : ℚ :=
      if hueDiff ≤ fullZone then 1
      else clip01 (1 - (hueDiff - fullZone) / (falloffEnd - fullZone))
    let satOk : ℚ := if minSat ≤ sP then 1 else 0
    let valOk : ℚ := if minVal ≤ vP then 1 else 0
    let colorMask0 := hueOk * satOk * valOk
    let inShadow : ℚ := (if (vP : ℚ) < 35 then 1 else 0) * objectMask i j
    let colorMask := clip01 (colorMask0 + inShadow)
    .ok (clip01 (objectMask i j * colorMask))

/-- Lines 129-139: the optional color-match restriction followed by
the edge-sharpening transform; the result is the effective mask the
painting and compositing steps use at pixel `(i, j)`. -/
def effectiveMaskAt (ext : CvExt) (h w : ℕ) (rgbQ : Grid (ℚ × ℚ × ℚ))
    (mask : MaskInput) (sourceColorHex : Option String)
    (hueToleranceDegrees : ℚ) (i j : ℕ) : Except Unit ℚ :=
  let m0 := normalizeMaskValues h w (normalizeMaskShape ext h w mask)
  let base : Except Unit ℚ :=
    match sourceColorHex with
    | none => .ok (m0 i j)
    | some s =>
      if s.isEmpty then .ok (m0 i j)
      else colorMatchMaskAt ext rgbQ m0 s hueToleranceDegrees 0 0 i j
  match base with
  | .error e => .error e
  | .ok m => .ok (clip01 (if 1/2 ≤ m then 1 else m * 2))

/-- Lines 156-158: circular hue difference folded to the shortest
path (`np.where` chain on `H_t - H_orig`). -/
def hueAdjust (d : ℚ) : ℚ :=
  let d1 := if 179/2 < d then d - 180 else d
  if d1 < -(179/2) then d1 + 180 else d1

/-- Line 160: `new_H = (H_orig + hue_diff * mask_float + 180.0) % 180.0`. -/
def newHueQ (hOrig hueDiffAdj m : ℚ) : ℚ := qmod (hOrig + hueDiffAdj * m + 180) 180

/-- `recolor_masked_region` (lines 81-181) at one pixel of the output:
normalize the image and mask, parse the target color, build the
effective mask, shift hue/saturation in HSV with original brightness
kept (shadow-lifted), convert back and composite. -/
def recolorPixel (ext : CvExt) (h w : ℕ) (img : InputImage) (mask : MaskInput)
    (targetHex : String) (strength : ℚ) (sourceColorHex : Option String)
    (hueToleranceDegrees : ℚ) (i j : ℕ) : Except Unit Px4 :=
  match parseColorToRgb (some targetHex) with
  | .error e => .error e
  | .ok (rt, gt, bt) =>
    let rgbQ := rgbQof img
    match effectiveMaskAt ext h w rgbQ mask sourceColorHex hueToleranceDegrees i j with
    | .error e => .error e
    | .ok m =>
      let hsv := ext.bgr2hsv (bgrByteOf rgbQ i j)
      let hO : ℚ := (hsv.1 : ℚ)
      let sO : ℚ := (hsv.2.1 : ℚ)
      let vO : ℚ := (hsv.2.2 : ℚ)
      let tgtHsv := ext.bgr2hsv ((bt.emod 256).toNat, (gt.emod 256).toNat, (rt.emod 256).toNat)
      let hT : ℚ := (tgtHsv.1 : ℚ)
      let sT : ℚ := (tgtHsv.2.1 : ℚ)
      let hueDiff := hueAdjust (hT - hO)
      let newH := newHueQ hO hueDiff m
      let newS := sO + (sT - sO) * strength * m
      let newV :=
        if 1/10 < m ∧ vO < 18 then max vO (28 * m) else vO
      let newHsvU8 : ℕ × ℕ × ℕ := (toByteClip 179 newH, toByteClip 255 newS, toByteClip 255 newV)
      let newBgr := ext.hsv2bgr newHsvU8
      let paintedR : ℚ := (newBgr.2.2 : ℚ) / 255
      let paintedG : ℚ := (newBgr.2.1 : ℚ) / 255
      let paintedB : ℚ := (newBgr.1 : ℚ) / 255
      let outChan (orig painted : ℚ) : ℕ := toByte (orig * (1 - m) + painted * m)
      .ok ⟨outChan (rgbQ i j).1 paintedR,
           outChan (rgbQ i j).2.1 paintedG,
           outChan (rgbQ i j).2.2 paintedB,
           (normalizeImage img i j).a⟩

/-! ## Concrete fixtures for witnesses -/

/-- A trivial instantiation of the external OpenCV primitives, used to
evaluate the embedding on concrete inputs. -/
def extW : CvExt :=
  { bgr2hsv := fun _ => (0, 0, 0)
    hsv2bgr := fun _ => (0, 0, 0)
    rgb2gray := fun _ => 0
    resize := fun _ _ _ _ _ => fun _ _ => 0
    gauss := fun _ _ g => g }

/-- A 1×1 RGBA test image. -/
def imgW : InputImage := .rgba fun _ _ => ⟨10, 20, 30, 40⟩

/-- A 1×1 RGB (alpha-less) test image. -/
def imgW3 : InputImage := .rgb fun _ _ => (1, 2, 3)

/-- An all-zero 1×1 mask. -/
def maskW : MaskInput := .twoD 1 1 fun _ _ => 0

/-- A 2×2 binary test mask with a single one at `(0, 1)`. -/
def mBinW : Grid ℚ := fun i j => if i = 0 ∧ j = 1 then 1 else 0

/-- A 2×2 all-black RGB test image. -/
def img3W : Grid (ℕ × ℕ × ℕ) := fun _ _ => (0, 0, 0)

/-- A constant half-weight 1×1 object mask. -/
def omW : Grid ℚ := fun _ _ => 1/2

/-- A trivial segmentation stand-in for `run_segment_rect`. -/
def segW : ℚ → ℚ → ℚ → ℚ → Grid ℚ × String := fun _ _ _ _ => (fun _ _ => 0, "grabcut_rect")

/-- What the spec asserts of the hue-shift step at one pixel, for
original and target hue `hO, hT` (OpenCV half-degree units, 0..179)
and effective mask value `m`: the adjusted delta is congruent to
`hT - hO` modulo the 180-unit cycle and lies on the shortest circular
path (in `(-90, 90]`), and the new hue is `hO + delta * m` wrapped by
the cyclic modulus into `[0, 180)`. -/
def HueShiftSpec (hO hT : ℤ) (m : ℚ) : Prop :=
  (∃ k : ℤ, hueAdjust ((hT : ℚ) - (hO : ℚ)) = ((hT - hO : ℤ) : ℚ) + 180 * k) ∧
  (-90 < hueAdjust ((hT : ℚ) - (hO : ℚ)) ∧ hueAdjust ((hT : ℚ) - (hO : ℚ)) ≤ 90) ∧
  newHueQ (hO : ℚ) (hueAdjust ((hT : ℚ) - (hO : ℚ))) m
    = qmod ((hO : ℚ) + hueAdjust ((hT : ℚ) - (hO : ℚ)) * m) 180 ∧
  0 ≤ newHueQ (hO : ℚ) (hueAdjust ((hT : ℚ) - (hO : ℚ))) m ∧
  newHueQ (hO : ℚ) (hueAdjust ((hT : ℚ) - (hO : ℚ))) m < 180

/-! ## Shared lemmas -/

theorem clip01_nonneg (x : ℚ) : 0 ≤ clip01 x := by
  unfold clip01
  rcases le_total 1 (max 0 x) with h | h
  · simp [min_eq_left h]
  · simp [min_eq_right h, le_max_left]

theorem clip01_le_one (x : ℚ) : clip01 x ≤ 1 := min_le_left _ _

theorem clip01_of_mem (x : ℚ) (h0 : 0 ≤ x) (h1 : x ≤ 1) : clip01 x = x := by
  unfold clip01
  rw [max_eq_right h0, min_eq_right h1]

theorem clip01_mono {x y : ℚ} (h : x ≤ y) : clip01 x ≤ clip01 y := by
  unfold clip01
  exact min_le_min le_rfl (max_le_max le_rfl h)

/-- `qmod x 180` lies in `[0, 180)`. -/
theorem qmod_nonneg_lt (x : ℚ) : 0 ≤ qmod x 180 ∧ qmod x 180 < 180 := by
  have hfr : qmod x 180 = 180 * Int.fract (x / 180) := by
    unfold qmod Int.fract
    field_simp
  constructor
  · rw [hfr]
    have := Int.fract_nonneg (x / 180)
    positivity
  · rw [hfr]
    have h1 : Int.fract (x / 180) < 1 := Int.fract_lt_one _
    nlinarith

/-- Adding the modulus inside `qmod` is invisible. -/
theorem qmod_add_180 (x : ℚ) : qmod (x + 180) 180 = qmod x 180 := by
  unfold qmod
  have h : (x + 180) / 180 = x / 180 + 1 := by ring
  rw [h, Int.floor_add_one]
  push_cast
  ring

/-- The `uint8 → /255 → clip → *255 → uint8` round trip is the
identity on bytes. -/
theorem toByte_byte (p : ℕ) (hp : p ≤ 255) : toByte ((p : ℚ) / 255) = p := by
  have h0 : (0:ℚ) ≤ (p:ℚ) / 255 := by positivity
  have h1 : (p:ℚ) / 255 ≤ 1 := by
    rw [div_le_one (by norm_num : (0:ℚ) < 255)]
    exact_mod_cast hp
  unfold toByte
  rw [clip01_of_mem _ h0 h1, div_mul_cancel₀ _ (by norm_num : (255:ℚ) ≠ 0)]
  simp

theorem cvErode_le_255 (K : List (ℤ × ℤ)) (h w : ℕ) (g : Grid ℕ) (i j : ℕ) :
    cvErode K h w g i j ≤ 255 := by
  unfold cvErode
  induction K with
  | nil => simp
  | cons p K ih =>
    simp only [List.foldr]
    split
    · exact le_trans (min_le_right _ _) ih
    · exact ih

theorem cvDilate_le_255 (K : List (ℤ × ℤ)) (h w : ℕ) (g : Grid ℕ)
    (hg : ∀ a b, g a b ≤ 255) (i j : ℕ) : cvDilate K h w g i j ≤ 255 := by
  unfold cvDilate
  induction K with
  | nil => simp
  | cons p K ih =>
    simp only [List.foldr]
    split
    · exact max_le (hg _ _) ih
    · exact ih

/-- With the 1×1 structuring element, dilation is the identity at
in-bounds pixels. -/
theorem cvDilate_single (h w : ℕ) (g : Grid ℕ) (i j : ℕ)
    (hi : i < h) (hj : j < w) : cvDilate [(0, 0)] h w g i j = g i j := by
  unfold cvDilate
  have hc : (0:ℤ) ≤ (i:ℤ) + 0 ∧ (i:ℤ) + 0 < (h:ℤ) ∧ (0:ℤ) ≤ (j:ℤ) + 0 ∧ (j:ℤ) + 0 < (w:ℤ) := by
    refine ⟨by positivity, ?_, by positivity, ?_⟩ <;> omega
  simp only [List.foldr, if_pos hc]
  norm_num

/-- With the 1×1 structuring element, erosion is the identity at
in-bounds pixels of a 0..255 image. -/
theorem cvErode_single (h w : ℕ) (g : Grid ℕ) (i j : ℕ)
    (hi : i < h) (hj : j < w) (hv : g i j ≤ 255) :
    cvErode [(0, 0)] h w g i j = g i j := by
  unfold cvErode
  have hc : (0:ℤ) ≤ (i:ℤ) + 0 ∧ (i:ℤ) + 0 < (h:ℤ) ∧ (0:ℤ) ≤ (j:ℤ) + 0 ∧ (j:ℤ) + 0 < (w:ℤ) := by
    refine ⟨by positivity, ?_, by positivity, ?_⟩ <;> omega
  simp only [List.foldr, if_pos hc]
  norm_num [min_eq_left hv]

theorem toByte_mask0 (p : ℕ) (hp : p ≤ 255) (q : ℚ) :
    toByte ((p : ℚ) / 255 * (1 - 0) + q * 0) = p := by
  rw [show (p : ℚ) / 255 * (1 - 0) + q * 0 = (p : ℚ) / 255 by ring]
  exact toByte_byte p hp

theorem le_clip01_add (m s : ℚ) (h1 : m ≤ 1) (hs : 0 ≤ s) : m ≤ clip01 (m + s) := by
  unfold clip01
  refine le_min h1 (le_trans ?_ (le_max_right _ _))
  linarith

theorem clip01_mul_clip01_le (m t : ℚ) (h0 : 0 ≤ m) : clip01 (m * clip01 t) ≤ m := by
  refine le_trans (min_le_right _ _) (max_le h0 ?_)
  calc m * clip01 t ≤ m * 1 := mul_le_mul_of_nonneg_left (clip01_le_one _) h0
    _ = m := mul_one _

theorem morphClose_single (h w : ℕ) (g : Grid ℕ) (i j : ℕ)
    (hi : i < h) (hj : j < w) (hv : g i j ≤ 255) :
    morphClose [(0, 0)] h w g i j = g i j := by
  unfold morphClose
  rw [cvErode_single h w _ i j hi hj (by rw [cvDilate_single h w g i j hi hj]; exact hv),
    cvDilate_single h w g i j hi hj]

theorem morphOpen_single (h w : ℕ) (g : Grid ℕ) (i j : ℕ)
    (hi : i < h) (hj : j < w) (hv : g i j ≤ 255) :
    morphOpen [(0, 0)] h w g i j = g i j := by
  unfold morphOpen
  rw [cvDilate_single h w _ i j hi hj, cvErode_single h w g i j hi hj hv]

/-! ## Claims -/

/-- **C1.** For every well-formed input image, target color, and
strength, and every pixel at which the normalized, edge-sharpened
mask value is 0, the RGB channels of the output of
`recolor_masked_region` equal the RGB channels of the input image
exactly, despite the `uint8 → float64/255 → *255 → uint8` round trip
(exact in this embedding's rational model of float64). -/
theorem recolor_outside_mask_rgb_identity
    (ext : CvExt) (h w : ℕ) (img : InputImage) (mask : MaskInput)
    (targetHex : String) (strength : ℚ) (src : Option String) (tol : ℚ)
    (i j : ℕ) (px : Px4)
    (hr : (normalizeImage img i j).r ≤ 255)
    (hg : (normalizeImage img i j).g ≤ 255)
    (hb : (normalizeImage img i j).b ≤ 255)
    (hm : effectiveMaskAt ext h w (rgbQof img) mask src tol i j = .ok 0)
    (ho : recolorPixel ext h w img mask targetHex strength src tol i j = .ok px) :
    px.r = (normalizeImage img i j).r ∧ px.g = (normalizeImage img i j).g ∧
      px.b = (normalizeImage img i j).b := by
  rcases hpc : parseColorToRgb (some targetHex) with e | ⟨rt, gt, bt⟩
  · simp [recolorPixel, hpc] at ho
  · simp only [recolorPixel, hpc, hm] at ho
    obtain rfl := Except.ok.inj ho
    refine ⟨?_, ?_, ?_⟩ <;> dsimp only [rgbQof]
    · exact toByte_mask0 _ hr _
    · exact toByte_mask0 _ hg _
    · exact toByte_mask0 _ hb _

set_option maxRecDepth 10000 in
theorem recolor_outside_mask_rgb_identity_witness :
    (Px4.mk 10 20 30 40).r = (normalizeImage imgW 0 0).r ∧
      (Px4.mk 10 20 30 40).g = (normalizeImage imgW 0 0).g ∧
      (Px4.mk 10 20 30 40).b = (normalizeImage imgW 0 0).b :=
  recolor_outside_mask_rgb_identity extW 1 1 imgW maskW "#FF0000" (4/5) none 25 0 0
    ⟨10, 20, 30, 40⟩ (by decide) (by decide) (by decide) (by decide) (by decide)

/-- **C2.** For every input image, mask, target color, strength,
source color and tolerance, the alpha channel of the output of
`recolor_masked_region` equals the alpha channel of the (normalized)
input image at every pixel, with alpha defaulted to 255 when the
input has no alpha channel. -/
theorem recolor_preserves_alpha
    (ext : CvExt) (h w : ℕ) (img : InputImage) (mask : MaskInput)
    (targetHex : String) (strength : ℚ) (src : Option String) (tol : ℚ)
    (i j : ℕ) (px : Px4)
    (ho : recolorPixel ext h w img mask targetHex strength src tol i j = .ok px) :
    px.a = (normalizeImage img i j).a ∧
      (hasAlphaChannel img = false → (normalizeImage img i j).a = 255) := by
  constructor
  · rcases hpc : parseColorToRgb (some targetHex) with e | ⟨rt, gt, bt⟩
    · simp [recolorPixel, hpc] at ho
    · rcases hem : effectiveMaskAt ext h w (rgbQof img) mask src tol i j with e | m
      · simp [recolorPixel, hpc, hem] at ho
      · simp only [recolorPixel, hpc, hem] at ho
        obtain rfl := Except.ok.inj ho
        rfl
  · intro hna
    cases img with
    | gray g => rfl
    | rgb g => rfl
    | rgba g => simp [hasAlphaChannel] at hna

set_option maxRecDepth 10000 in
theorem recolor_preserves_alpha_witness :
    (Px4.mk 1 2 3 255).a = (normalizeImage imgW3 0 0).a ∧
      (hasAlphaChannel imgW3 = false → (normalizeImage imgW3 0 0).a = 255) :=
  recolor_preserves_alpha extW 1 1 imgW3 maskW "#00FF00" 1 none 25 0 0
    ⟨1, 2, 3, 255⟩ (by decide)

/-- **C3.** In `recolor_masked_region`, for every pixel the hue delta
from the original to the target hue is taken along the shortest
circular path (congruent modulo the 180-unit cycle, in `(-90, 90]`,
so a raw delta of 179 units folds to -1), and the new hue is the
original hue plus `delta × effectiveMask`, wrapped by the cyclic
modulus back into the valid range `[0, 180)`. -/
theorem hue_shift_shortest_path (hO hT : ℤ) (h0 : 0 ≤ hO) (h1 : hO ≤ 179)
    (h2 : 0 ≤ hT) (h3 : hT ≤ 179) (m : ℚ) :
    HueShiftSpec hO hT m := by
  have hcast : (hT : ℚ) - (hO : ℚ) = ((hT - hO : ℤ) : ℚ) := by push_cast; ring
  have hq0 : (0 : ℚ) ≤ (hO : ℚ) := by exact_mod_cast h0
  have hq1 : (hO : ℚ) ≤ 179 := by exact_mod_cast h1
  have hq2 : (0 : ℚ) ≤ (hT : ℚ) := by exact_mod_cast h2
  have hq3 : (hT : ℚ) ≤ 179 := by exact_mod_cast h3
  have hmain : (∃ k : ℤ, hueAdjust ((hT : ℚ) - (hO : ℚ)) = ((hT - hO : ℤ) : ℚ) + 180 * k) ∧
      (-90 < hueAdjust ((hT : ℚ) - (hO : ℚ)) ∧ hueAdjust ((hT : ℚ) - (hO : ℚ)) ≤ 90) := by
    by_cases hb1 : (179 / 2 : ℚ) < (hT : ℚ) - (hO : ℚ)
    · by_cases hb2 : (hT : ℚ) - (hO : ℚ) - 180 < -(179 / 2)
      · have hd : hueAdjust ((hT : ℚ) - (hO : ℚ)) = (hT : ℚ) - (hO : ℚ) := by
          simp only [hueAdjust, if_pos hb1, if_pos hb2]
          ring
        have hn1 : (90 : ℤ) ≤ hT - hO := by
          have : (179 : ℤ) < 2 * (hT - hO) := by
            exact_mod_cast (by linarith : (179 : ℚ) < 2 * ((hT : ℚ) - (hO : ℚ)))
          omega
        have hn1q : (90 : ℚ) ≤ (hT : ℚ) - (hO : ℚ) := by
          rw [hcast]; exact_mod_cast hn1
        refine ⟨⟨0, by rw [hd, hcast]; ring⟩, ?_, ?_⟩
        · rw [hd]; linarith
        · rw [hd]
          have hn2 : hT - hO ≤ (90 : ℤ) := by
            have : 2 * (hT - hO) < (181 : ℤ) := by
              exact_mod_cast (by linarith : 2 * ((hT : ℚ) - (hO : ℚ)) < (181 : ℚ))
            omega
          rw [hcast]; exact_mod_cast hn2
      · have hd : hueAdjust ((hT : ℚ) - (hO : ℚ)) = (hT : ℚ) - (hO : ℚ) - 180 := by
          simp only [hueAdjust, if_pos hb1, if_neg hb2]
        refine ⟨⟨-1, by rw [hd, hcast]; push_cast; ring⟩, ?_, ?_⟩
        · push_neg at hb2; linarith
        · linarith
    · by_cases hb2 : (hT : ℚ) - (hO : ℚ) < -(179 / 2)
      · have hd : hueAdjust ((hT : ℚ) - (hO : ℚ)) = (hT : ℚ) - (hO : ℚ) + 180 := by
          simp only [hueAdjust, if_neg hb1, if_pos hb2]
        have hn1 : hT - hO ≤ (-90 : ℤ) := by
          have : 2 * (hT - hO) < (-179 : ℤ) := by
            exact_mod_cast (by linarith : 2 * ((hT : ℚ) - (hO : ℚ)) < (-179 : ℚ))
          omega
        have hn1q : (hT : ℚ) - (hO : ℚ) ≤ -90 := by
          rw [hcast]; exact_mod_cast hn1
        refine ⟨⟨1, by rw [hd, hcast]; push_cast; ring⟩, ?_, ?_⟩
        · rw [hd]; linarith
        · rw [hd]; linarith
      · have hd : hueAdjust ((hT : ℚ) - (hO : ℚ)) = (hT : ℚ) - (hO : ℚ) := by
          simp only [hueAdjust, if_neg hb1, if_neg hb2]
        push_neg at hb1 hb2
        refine ⟨⟨0, by rw [hd, hcast]; ring⟩, ?_, ?_⟩
        · rw [hd]; linarith
        · rw [hd]; linarith
  refine ⟨hmain.1, hmain.2, ?_, ?_, ?_⟩
  · unfold newHueQ
    exact qmod_add_180 _
  · exact (qmod_nonneg_lt _).1
  · exact (qmod_nonneg_lt _).2

theorem hue_shift_shortest_path_witness : HueShiftSpec 0 179 1 :=
  hue_shift_shortest_path 0 179 (by decide) (by decide) (by decide) (by decide) 1

/-- If `parse_color_to_rgb` raises, the CSS rgb/rgba pattern matched
and one of its captured numeric fields is not a valid Python float. -/
theorem parse_never_errors_unless (v : String) (hv : parseColorToRgb (some v) = .error ()) :
    ∃ g1 g2 g3, matchRgbaGroups (parsePre v) = some (g1, g2, g3) ∧
      (parsePyFloat g1 = none ∨ parsePyFloat g2 = none ∨ parsePyFloat g3 = none) := by
  rcases hmg : matchRgbaGroups (parsePre v) with _ | ⟨g1, g2, g3⟩
  · exfalso
    simp only [parseColorToRgb, hmg] at hv
    rcases hhx : hexToRgb (parsePre v) with _ | t <;> rw [hhx] at hv <;>
      simp [ite_eq_iff] at hv
  · simp only [parseColorToRgb, hmg] at hv
    refine ⟨g1, g2, g3, rfl, ?_⟩
    rcases hf1 : parsePyFloat g1 with _ | r1
    · exact Or.inl rfl
    rcases hf2 : parsePyFloat g2 with _ | r2
    · exact Or.inr (Or.inl rfl)
    rcases hf3 : parsePyFloat g3 with _ | r3
    · exact Or.inr (Or.inr rfl)
    exfalso
    rw [hf1, hf2, hf3] at hv
    simp [ite_eq_iff] at hv

/-- **C4, counterexample.** The claim says `parse_color_to_rgb`
"returns the fixed fallback (255,0,0) and never raises" on every
unparseable input; but on `"rgb(1.2.3,0,0)"` the rgba regex matches
with the group `"1.2.3"`, and `float("1.2.3")` raises an uncaught
`ValueError` (modelled as `.error ()`). -/
theorem parse_color_raises_counterexample :
    parseColorToRgb (some "rgb(1.2.3,0,0)") = .error () := by decide

/-- **C4, amended.** `parse_color_to_rgb` maps `#FF0000`, `FF0000` to
(255,0,0), `rgba(0,1,0,1)` to (0,255,0) (components ≤ 1 scaled by
255), and empty or non-string input to the fallback (255,0,0); and it
never raises **except** when the CSS rgb/rgba pattern matches with a
captured numeric field that is not a valid float (more than one dot,
or no digit), in which case a `ValueError` escapes. -/
theorem parse_color_to_rgb_amended :
    parseColorToRgb none = .ok (255, 0, 0) ∧
    parseColorToRgb (some "") = .ok (255, 0, 0) ∧
    parseColorToRgb (some "#FF0000") = .ok (255, 0, 0) ∧
    parseColorToRgb (some "FF0000") = .ok (255, 0, 0) ∧
    parseColorToRgb (some "rgba(0,1,0,1)") = .ok (0, 255, 0) ∧
    ∀ v : String, parseColorToRgb (some v) = .error () →
      ∃ g1 g2 g3, matchRgbaGroups (parsePre v) = some (g1, g2, g3) ∧
        (parsePyFloat g1 = none ∨ parsePyFloat g2 = none ∨ parsePyFloat g3 = none) :=
  ⟨by decide, by decide, by decide, by decide, by decide, parse_never_errors_unless⟩

theorem parse_color_to_rgb_amended_witness :
    ∃ g1 g2 g3, matchRgbaGroups (parsePre "rgb(1.2.3,0,0)") = some (g1, g2, g3) ∧
      (parsePyFloat g1 = none ∨ parsePyFloat g2 = none ∨ parsePyFloat g3 = none) :=
  parse_color_to_rgb_amended.2.2.2.2.2 "rgb(1.2.3,0,0)" (by decide)

theorem ite_one_zero_nonneg (c : Prop) [Decidable c] : (0:ℚ) ≤ if c then 1 else 0 := by
  by_cases hc : c
  · rw [if_pos hc]; norm_num
  · rw [if_neg hc]

theorem morphOpen_le_255 (K : List (ℤ × ℤ)) (h w : ℕ) (g : Grid ℕ) (i j : ℕ) :
    morphOpen K h w g i j ≤ 255 :=
  cvDilate_le_255 K h w _ (fun a b => cvErode_le_255 K h w g a b) i j

/-- **C5.** For every image and mask with values in [0,1] at the
pixel, and all `dilation_px` and `shadow_value_threshold` parameters,
`expand_mask_to_include_shadow` is pointwise ≥ the input mask: the
operation never shrinks the mask. -/
theorem expand_mask_monotone
    (ext : CvExt) (h w : ℕ) (image : Grid (ℕ × ℕ × ℕ)) (mask : Grid ℚ)
    (dilationPx : ℤ) (shadowValueThreshold : ℚ) (i j : ℕ)
    (h0 : 0 ≤ mask i j) (h1 : mask i j ≤ 1) :
    mask i j ≤ expandMaskToIncludeShadow ext h w image mask dilationPx shadowValueThreshold i j := by
  unfold expandMaskToIncludeShadow
  dsimp only
  rw [clip01_of_mem (mask i j) h0 h1]
  exact le_clip01_add _ _ h1 (ite_one_zero_nonneg _)

theorem expand_mask_monotone_witness :
    mBinW 0 1 ≤ expandMaskToIncludeShadow extW 2 2 img3W mBinW 0 (1/2) 0 1 :=
  expand_mask_monotone extW 2 2 img3W mBinW 0 (1/2) 0 1 (by decide) (by decide)

/-- **C6.** On an already-binary mask (values exactly 0 or 1),
`refine_mask` with `morph_kernel = 1`, `feather_px = 0`,
`mask_threshold = 0.5` is the identity at every in-bounds pixel:
the 1×1 elliptical kernel makes closing and opening trivial, and with
no feathering the binarized mask maps straight back to itself. -/
theorem refine_mask_identity_on_binary
    (ext : CvExt) (h w : ℕ) (mask : Grid ℚ) (i j : ℕ)
    (hbin : mask i j = 0 ∨ mask i j = 1) (hi : i < h) (hj : j < w) :
    refineMask ext h w mask 1 0 (1/2) i j = mask i j := by
  simp only [refineMask]
  rw [if_neg (lt_irrefl (0:ℚ))]
  have hk : ((min 9 (max 1 (if (1:ℤ) % 2 = 1 then (1:ℤ) else 1 + 1))).toNat) = 1 := by decide
  rw [hk]
  have hE : ellipseOffsets 1 = [(0, 0)] := by decide
  rw [hE]
  have hgv : (fun a b => if (1:ℚ)/2 ≤ mask a b then (255:ℕ) else 0) i j ≤ 255 := by
    dsimp only
    split <;> norm_num
  have hc : morphClose [(0, 0)] h w (fun a b => if (1:ℚ)/2 ≤ mask a b then (255:ℕ) else 0) i j
      = (fun a b => if (1:ℚ)/2 ≤ mask a b then (255:ℕ) else 0) i j :=
    morphClose_single h w _ i j hi hj hgv
  have hop : morphOpen [(0, 0)] h w
      (morphClose [(0, 0)] h w (fun a b => if (1:ℚ)/2 ≤ mask a b then (255:ℕ) else 0)) i j
      = morphClose [(0, 0)] h w (fun a b => if (1:ℚ)/2 ≤ mask a b then (255:ℕ) else 0) i j :=
    morphOpen_single h w _ i j hi hj (by rw [hc]; exact hgv)
  rw [hop, hc]
  dsimp only
  rcases hbin with hb | hb
  · rw [if_neg (by rw [hb]; norm_num : ¬ (1/2:ℚ) ≤ mask i j), hb]
    norm_num
  · rw [if_pos (by rw [hb]; norm_num : (1/2:ℚ) ≤ mask i j), hb]
    norm_num

theorem refine_mask_identity_on_binary_witness :
    refineMask extW 2 2 mBinW 1 0 (1/2) 0 1 = mBinW 0 1 :=
  refine_mask_identity_on_binary extW 2 2 mBinW 0 1 (by decide) (by decide) (by decide)

/-- **C7.** For every 2-D real-valued input mask and all
`morph_kernel`, `feather_px`, `mask_threshold` parameters (and every
implementation of the Gaussian blur), every element of the mask
returned by `refine_mask` lies in [0, 1]. -/
theorem refine_mask_range
    (ext : CvExt) (h w : ℕ) (mask : Grid ℚ) (morphKernel : ℤ)
    (featherPx maskThreshold : ℚ) (i j : ℕ) :
    0 ≤ refineMask ext h w mask morphKernel featherPx maskThreshold i j ∧
      refineMask ext h w mask morphKernel featherPx maskThreshold i j ≤ 1 := by
  simp only [refineMask]
  by_cases hf : (0:ℚ) < featherPx
  · rw [if_pos hf]
    exact ⟨clip01_nonneg _, clip01_le_one _⟩
  · rw [if_neg hf]
    constructor
    · positivity
    · rw [div_le_one (by norm_num : (0:ℚ) < 255)]
      exact_mod_cast morphOpen_le_255 _ h w _ i j

/-- **C8.** On a 100×100 image the rectangle hint (15,15,85,85)
percent resolves to the pixel box with corners (15,15) and (85,85);
and for every rectangle hint with `left ≥ right` or `top ≥ bottom`,
`on_generate_mask` returns the invalid-box error for **every**
segmentation function, i.e. before and independent of segmentation. -/
theorem rect_hint_resolution_and_validation :
    rectToPixels 100 100 15 15 85 85 = (15, 15, 85, 85) ∧
    ∀ (ext : CvExt) (h w : ℕ) (seg : ℚ → ℚ → ℚ → ℚ → Grid ℚ × String)
      (l t r b : ℚ) (mk : ℤ) (fp mt : ℚ),
      (r ≤ l ∨ b ≤ t) →
      onGenerateMask ext h w true seg l t r b mk fp mt =
        .error "Invalid box: Left < Right and Top < Bottom." := by
  constructor
  · decide
  · intro ext h w seg l t r b mk fp mt hinv
    unfold onGenerateMask
    rw [if_neg (by simp), if_pos hinv]

theorem rect_hint_resolution_and_validation_witness :
    onGenerateMask extW 1 1 true segW 50 50 40 90 3 2 (1/2) =
      .error "Invalid box: Left < Right and Top < Bottom." :=
  rect_hint_resolution_and_validation.2 extW 1 1 segW 50 50 40 90 3 2 (1/2)
    (Or.inl (by norm_num))

/-- **C9.** For every image, object mask (nonnegative at the pixel),
source color string and hue tolerance, the color-match mask built by
`_build_color_match_mask` is pointwise ≥ 0, ≤ the object mask, and
≤ 1 — selective color matching only restricts coverage (the
always-included cast-shadow pixels are intersected with the object
mask). -/
theorem color_match_mask_bounds
    (ext : CvExt) (rgbQ : Grid (ℚ × ℚ × ℚ)) (objectMask : Grid ℚ)
    (src : String) (tol : ℚ) (minSat minVal : ℕ) (i j : ℕ) (res : ℚ)
    (h0 : 0 ≤ objectMask i j)
    (hok : colorMatchMaskAt ext rgbQ objectMask src tol minSat minVal i j = .ok res) :
    0 ≤ res ∧ res ≤ objectMask i j ∧ res ≤ 1 := by
  rcases hpc : parseColorToRgb (some src) with e | ⟨rs, gs, bs⟩
  · simp [colorMatchMaskAt, hpc] at hok
  · simp only [colorMatchMaskAt, hpc] at hok
    obtain rfl := Except.ok.inj hok
    exact ⟨clip01_nonneg _, clip01_mul_clip01_le _ _ h0, clip01_le_one _⟩

set_option maxRecDepth 10000 in
theorem color_match_mask_bounds_witness :
    (0:ℚ) ≤ 1/2 ∧ (1/2:ℚ) ≤ omW 0 0 ∧ (1/2:ℚ) ≤ 1 :=
  color_match_mask_bounds extW (rgbQof imgW) omW "#FFEB3B" 25 0 0 0 0 (1/2)
    (by decide) (by decide)

theorem clip01_zero_mul (x : ℚ) : clip01 (0 * x) = 0 := by
  rw [zero_mul]
  norm_num [clip01]

theorem colorMatch_at_zero
    (ext : CvExt) (rgbQ : Grid (ℚ × ℚ × ℚ)) (om : Grid ℚ) (s : String)
    (tol : ℚ) (mS mV : ℕ) (i j : ℕ) (res : ℚ)
    (hz : om i j = 0)
    (hok : colorMatchMaskAt ext rgbQ om s tol mS mV i j = .ok res) : res = 0 := by
  rcases hpc : parseColorToRgb (some s) with e | ⟨rs, gs, bs⟩
  · simp [colorMatchMaskAt, hpc] at hok
  · simp only [colorMatchMaskAt, hpc, hz] at hok
    obtain rfl := Except.ok.inj hok
    exact clip01_zero_mul _

/-- **C10.** For every `h × w` image and 1-D mask whose length is not
`h*w`, `recolor_masked_region` silently replaces the mask with an
all-zero mask, so the effective (sharpened) mask is 0 at every pixel
and nothing is painted; a 2-D mask of mismatched shape is instead
passed to the bilinear resize. -/
theorem mask_shape_mismatch_handling
    (ext : CvExt) (h w : ℕ) (n : ℕ) (v : ℕ → ℚ) (hn : n ≠ h * w) :
    (∀ i j, normalizeMaskValues h w (normalizeMaskShape ext h w (.oneD n v)) i j = 0) ∧
    (∀ (rgbQ : Grid (ℚ × ℚ × ℚ)) (src : Option String) (tol : ℚ) (i j : ℕ) (em : ℚ),
      effectiveMaskAt ext h w rgbQ (.oneD n v) src tol i j = .ok em → em = 0) ∧
    (∀ (mh mw : ℕ) (v2 : Grid ℚ), ¬(mh = h ∧ mw = w) →
      normalizeMaskShape ext h w (.twoD mh mw v2) = ext.resize mh mw h w v2) := by
  have hshape : normalizeMaskShape ext h w (.oneD n v) = fun _ _ => 0 := by
    simp [normalizeMaskShape, hn]
  have hbig : maskHasBig h w (fun _ _ => (0:ℚ)) = false := by
    have hdec : ((3:ℚ)/2 < 0) = False := by norm_num
    unfold maskHasBig
    simp [hdec]
  have hzero : ∀ i j, normalizeMaskValues h w (normalizeMaskShape ext h w (.oneD n v)) i j = 0 := by
    intro i j
    rw [hshape]
    unfold normalizeMaskValues
    simp only [hbig, Bool.false_eq_true, and_false, if_false]
    norm_num [clip01]
  refine ⟨hzero, ?_, ?_⟩
  · intro rgbQ src tol i j em hem
    rcases src with _ | s
    · simp only [effectiveMaskAt] at hem
      obtain rfl := Except.ok.inj hem
      rw [hzero i j]
      norm_num [clip01]
    · by_cases hsx : s.isEmpty
      · simp only [effectiveMaskAt, if_pos hsx] at hem
        obtain rfl := Except.ok.inj hem
        rw [hzero i j]
        norm_num [clip01]
      · simp only [effectiveMaskAt, if_neg hsx] at hem
        rcases hcm : colorMatchMaskAt ext rgbQ
            (normalizeMaskValues h w (normalizeMaskShape ext h w (.oneD n v))) s tol 0 0 i j
          with e | r
        · rw [hcm] at hem
          simp at hem
        · rw [hcm] at hem
          have hr : r = 0 := colorMatch_at_zero ext rgbQ _ s tol 0 0 i j r (hzero i j) hcm
          subst hr
          obtain rfl := Except.ok.inj hem
          norm_num [clip01]
  · intro mh mw v2 hne
    simp [normalizeMaskShape, hne]

theorem mask_shape_mismatch_handling_witness :
    normalizeMaskValues 1 1 (normalizeMaskShape extW 1 1 (.oneD 2 fun _ => 7)) 0 0 = 0 :=
  (mask_shape_mismatch_handling extW 1 1 2 (fun _ => 7) (by decide)).1 0 0
